import Mathlib

/-!
Verification of the rustdoc-comment to textlint-AST conversion core
(`src/comment.ts` of textlint-plugin-rustdoc).

Source text and comment bodies are modelled as lists of characters
(JavaScript strings are sequences of UTF-16 code units; all inputs of
interest here are plain characters, one code unit each).  Tree-sitter
`SyntaxNode`s are modelled by the record of the fields the conversion
reads: `text`, `startIndex`, `endIndex`, `startPosition`, `endPosition`.
-/

namespace Rustdoc

open scoped List

/-- Source text: a JavaScript string as a list of characters. -/
abbrev Text := List Char

/-- Shorthand turning a Lean string literal into a `Text`. -/
def txt (s : String) : Text := s.toList

/-- Characters matched by the JavaScript regular-expression class `\s`
(ECMAScript WhiteSpace and LineTerminator characters). -/
def jsWhitespaceChars : List Char :=
  [' ', '\t', '\n', '\u000B', '\u000C', '\r', '\u00A0', '\u1680',
   '\u2000', '\u2001', '\u2002', '\u2003', '\u2004', '\u2005', '\u2006',
   '\u2007', '\u2008', '\u2009', '\u200A', '\u2028', '\u2029', '\u202F',
   '\u205F', '\u3000', '\uFEFF']

/-- Decidable test for JavaScript `\s`. -/
def isJsWhitespace (c : Char) : Bool := jsWhitespaceChars.contains c

/-- The four rustdoc comment kinds (`type RustdocType` in `comment.ts`). -/
inductive RustdocType
  | outer_line
  | inner_line
  | outer_block
  | inner_block
deriving DecidableEq

/-- Embeds `getRustdocType` of `comment.ts`: classify a comment's raw text by
its marker, first match wins; `none` marks a non-documentation comment. -/
def getRustdocType (text : Text) : Option RustdocType :=
  if txt "///" <+: text then some .outer_line
  else if txt "//!" <+: text then some .inner_line
  else if txt "/**" <+: text ∧ ¬ (txt "/***" <+: text) then some .outer_block
  else if txt "/*!" <+: text then some .inner_block
  else none

/-- Length of the match of the regular expression `^MMM\s?` (for a 3-character
marker `MMM`) against `text`, or the fallback 3 when there is no match.  This
is the `prefixLength` computation of the two line cases of `extractContent`. -/
def lineMarkerLength (marker : Text) (text : Text) : Nat :=
  if marker <+: text then
    match text.drop marker.length with
    | c :: _ => if isJsWhitespace c then marker.length + 1 else marker.length
    | [] => marker.length
  else 3

/-- Embeds one line of `processBlockContent`'s mapper: JavaScript
`line.replace(/^\s*\*\s?/, "")`.  The regex requires a literal `*` after the
leading whitespace run; when it is absent the line is returned unchanged. -/
def stripLineMarker (line : Text) : Text :=
  match line.dropWhile isJsWhitespace with
  | '*' :: rest =>
    match rest with
    | c :: rest2 => if isJsWhitespace c then rest2 else rest
    | [] => []
  | _ => line

/-- JavaScript `String.prototype.trim`: drop `\s` characters from both ends. -/
def trimText (t : Text) : Text :=
  ((t.dropWhile isJsWhitespace).reverse.dropWhile isJsWhitespace).reverse

/-- Embeds `processBlockContent` of `comment.ts`: split on newlines, strip each
line's leading ` * ` marker, rejoin and trim. -/
def processBlockContent (content : Text) : Text :=
  trimText (List.intercalate (txt "\n") ((content.splitOn '\n').map stripLineMarker))

/-- JavaScript `text.slice(3, -2)`: the inner body of a block comment, with the
3-character opening marker and the 2-character closing marker removed. -/
def blockInner (text : Text) : Text :=
  (text.drop 3).take ((text.drop 3).length - 2)

/-- Result record of `extractContent`: the stripped content together with the
number of characters consumed by the (first-line) prefix. -/
structure Extracted where
  content : Text
  prefixLength : Nat
deriving DecidableEq

/-- Embeds `extractContent` of `comment.ts`. -/
def extractContent (text : Text) (docType : RustdocType) : Extracted :=
  match docType with
  | .outer_line =>
    let p := lineMarkerLength (txt "///") text
    { content := text.drop p, prefixLength := p }
  | .inner_line =>
    let p := lineMarkerLength (txt "//!") text
    { content := text.drop p, prefixLength := p }
  | .outer_block =>
    { content := processBlockContent (blockInner text), prefixLength := 3 }
  | .inner_block =>
    { content := processBlockContent (blockInner text), prefixLength := 3 }

/-- Tree-sitter point: 0-indexed row and column. -/
structure Point where
  row : Nat
  column : Nat
deriving DecidableEq

/-- The fields of a tree-sitter `SyntaxNode` the conversion reads. -/
structure SyntaxNode where
  text : Text
  startIndex : Nat
  endIndex : Nat
  startPosition : Point
  endPosition : Point
deriving DecidableEq

/-- A textlint position: 1-indexed line, 0-indexed column. -/
structure CodePos where
  line : Nat
  column : Nat
deriving DecidableEq

/-- A textlint source span (`loc`); the source's `end` field is `stop` here
because `end` is a Lean keyword. -/
structure TxtLoc where
  start : CodePos
  stop : CodePos
deriving DecidableEq

/-- Embeds textlint's `TxtStrNode` (fields the conversion writes). -/
structure TxtStrNode where
  raw : Text
  value : Text
  range : Nat × Nat
  loc : TxtLoc
deriving DecidableEq

/-- Embeds textlint's `TxtParagraphNode`. -/
structure TxtParagraphNode where
  raw : Text
  range : Nat × Nat
  loc : TxtLoc
  children : List TxtStrNode
deriving DecidableEq

/-- Embeds textlint's `TxtDocumentNode`. -/
structure TxtDocumentNode where
  raw : Text
  range : Nat × Nat
  loc : TxtLoc
  children : List TxtParagraphNode
deriving DecidableEq

/-- Embeds `createStrNode` of `comment.ts`. -/
def createStrNode (node : SyntaxNode) (docType : RustdocType) : TxtStrNode :=
  let e := extractContent node.text docType
  { raw := e.content
    value := e.content
    range := (node.startIndex + e.prefixLength, node.endIndex)
    loc :=
      { start := { line := node.startPosition.row + 1
                   column := node.startPosition.column + e.prefixLength }
        stop := { line := node.endPosition.row + 1
                  column := node.endPosition.column } } }

/-- The children list built by `createParagraphNode`'s loop: one `TxtStrNode`
per token that classifies as a documentation comment, `null`-classified tokens
skipped. -/
def paragraphChildren (nodes : List SyntaxNode) : List TxtStrNode :=
  nodes.filterMap (fun n => (getRustdocType n.text).map (fun t => createStrNode n t))

/-- Embeds `createParagraphNode` of `comment.ts`. -/
def createParagraphNode (nodes : List SyntaxNode) : Option TxtParagraphNode :=
  if nodes.isEmpty then none
  else
    match (paragraphChildren nodes).head?, (paragraphChildren nodes).getLast? with
    | some firstChild, some lastChild =>
      some { raw := List.intercalate (txt "\n") (nodes.map SyntaxNode.text)
             range := (firstChild.range.1, lastChild.range.2)
             loc := { start := firstChild.loc.start, stop := lastChild.loc.stop }
             children := paragraphChildren nodes }
    | _, _ => none

/-- Loop body of `groupConsecutiveNodes`: `prev` is the token examined last,
`acc` the current group accumulated in reverse. -/
def groupGo (prev : SyntaxNode) (acc : List SyntaxNode) :
    List SyntaxNode → List (List SyntaxNode)
  | [] => [acc.reverse]
  | n :: ns =>
    if n.startPosition.row = prev.startPosition.row + 1 then
      groupGo n (n :: acc) ns
    else
      acc.reverse :: groupGo n [n] ns

/-- Embeds `groupConsecutiveNodes` of `comment.ts`: partition a token sequence
into runs of start-row-consecutive tokens. -/
def groupConsecutiveNodes : List SyntaxNode → List (List SyntaxNode)
  | [] => []
  | n :: ns => groupGo n [n] ns

/-- The filter step of `convertToTextlintAst`: keep only documentation
comments. -/
def rustdocFilter (docNodes : List SyntaxNode) : List SyntaxNode :=
  docNodes.filter (fun n => (getRustdocType n.text).isSome)

/-- The paragraph list built by `convertToTextlintAst`: group the filtered
tokens, convert each group, drop absent paragraphs. -/
def documentChildren (docNodes : List SyntaxNode) : List TxtParagraphNode :=
  (groupConsecutiveNodes (rustdocFilter docNodes)).filterMap createParagraphNode

/-- Embeds `convertToTextlintAst` of `comment.ts`. -/
def convertToTextlintAst (docNodes : List SyntaxNode) (rawText : Text) :
    TxtDocumentNode :=
  match (documentChildren docNodes).head?, (documentChildren docNodes).getLast? with
  | some firstChild, some lastChild =>
    { raw := rawText
      range := (firstChild.range.1, lastChild.range.2)
      loc := { start := firstChild.loc.start, stop := lastChild.loc.stop }
      children := documentChildren docNodes }
  | _, _ =>
    { raw := rawText
      range := (0, rawText.length)
      loc := { start := { line := 1, column := 0 }, stop := { line := 1, column := 0 } }
      children := [] }

/-- Embeds `traverse` of `comment.ts` (single-node compatibility entry). -/
def traverse (docNode : SyntaxNode) : Option TxtStrNode :=
  (getRustdocType docNode.text).map (fun t => createStrNode docNode t)

/-! ## Helper definitions for the statements -/

/-- Two tokens whose start rows are consecutive: the second starts on the row
immediately below the first (the grouping test of `groupConsecutiveNodes`). -/
def consecutive (a b : SyntaxNode) : Prop :=
  b.startPosition.row = a.startPosition.row + 1

instance (a b : SyntaxNode) : Decidable (consecutive a b) :=
  inferInstanceAs (Decidable (_ = _))

/-- Between two adjacent groups the run is broken: the first token of the
second group is not on the row immediately below the last token of the first
group. -/
def boundaryBreak (g g' : List SyntaxNode) : Prop :=
  ∀ a b, g.getLast? = some a → g'.head? = some b → ¬ consecutive a b

/-- A minimal token at a given 0-indexed start row, for concrete examples. -/
def rowTok (r : Nat) : SyntaxNode :=
  { text := []
    startIndex := 0
    endIndex := 0
    startPosition := { row := r, column := 0 }
    endPosition := { row := r, column := 0 } }

/-! ## Lemmas about the grouping loop -/

/-- The groups produced by the loop concatenate to the pending group followed
by the remaining input. -/
theorem groupGo_flatten (ns : List SyntaxNode) :
    ∀ (prev : SyntaxNode) (acc : List SyntaxNode),
      (groupGo prev acc ns).flatten = acc.reverse ++ ns := by
  induction ns with
  | nil => intro prev acc; simp [groupGo]
  | cons n ns ih =>
    intro prev acc
    simp only [groupGo]
    split
    · rw [ih]; simp
    · simp [ih]

/-- The groups concatenate back to the input sequence. -/
theorem groupConsecutiveNodes_flatten (nodes : List SyntaxNode) :
    (groupConsecutiveNodes nodes).flatten = nodes := by
  cases nodes with
  | nil => rfl
  | cons n ns => simpa using groupGo_flatten ns n [n]

/-- No group produced by the loop is empty, as long as the pending group is
not. -/
theorem groupGo_ne_nil (ns : List SyntaxNode) :
    ∀ (prev : SyntaxNode) (acc : List SyntaxNode), acc ≠ [] →
      ∀ g ∈ groupGo prev acc ns, g ≠ [] := by
  induction ns with
  | nil =>
    intro prev acc ha g hg
    simp [groupGo] at hg
    subst hg
    simpa using ha
  | cons n ns ih =>
    intro prev acc ha g hg
    simp only [groupGo] at hg
    split at hg
    · exact ih n (n :: acc) (by simp) g hg
    · rcases List.mem_cons.mp hg with rfl | hg'
      · simpa using ha
      · exact ih n [n] (by simp) g hg'

/-- Every group produced by the loop is a run of consecutive start rows,
as long as the pending group (accumulated in reverse) is one ending in
`prev`. -/
theorem groupGo_chain (ns : List SyntaxNode) :
    ∀ (prev : SyntaxNode) (acc : List SyntaxNode),
      acc.head? = some prev → List.Chain' consecutive acc.reverse →
      ∀ g ∈ groupGo prev acc ns, List.Chain' consecutive g := by
  induction ns with
  | nil =>
    intro prev acc _ hch g hg
    simp [groupGo] at hg
    subst hg
    exact hch
  | cons n ns ih =>
    intro prev acc hhd hch g hg
    simp only [groupGo] at hg
    split at hg
    next hcons =>
      refine ih n (n :: acc) rfl ?_ g hg
      rw [List.reverse_cons]
      refine List.Chain'.append hch (List.chain'_singleton n) ?_
      intro x hx y hy
      rw [List.getLast?_reverse, hhd, Option.mem_some_iff] at hx
      simp only [List.head?_cons, Option.mem_some_iff] at hy
      subst hx
      subst hy
      exact hcons
    next =>
      rcases List.mem_cons.mp hg with rfl | hg'
      · exact hch
      · exact ih n [n] rfl (by simp) g hg'

/-- The first group produced by the loop extends the pending group. -/
theorem groupGo_first (ns : List SyntaxNode) :
    ∀ (prev : SyntaxNode) (acc : List SyntaxNode),
      ∃ t gs, groupGo prev acc ns = (acc.reverse ++ t) :: gs := by
  induction ns with
  | nil => intro prev acc; exact ⟨[], [], by simp [groupGo]⟩
  | cons n ns ih =>
    intro prev acc
    simp only [groupGo]
    split
    · obtain ⟨t, gs, h⟩ := ih n (n :: acc)
      exact ⟨n :: t, gs, by rw [h]; simp⟩
    · exact ⟨[], groupGo n [n] ns, by simp⟩

/-- Adjacent groups produced by the loop never continue the run across the
boundary. -/
theorem groupGo_boundary (ns : List SyntaxNode) :
    ∀ (prev : SyntaxNode) (acc : List SyntaxNode),
      acc.head? = some prev →
      List.Chain' boundaryBreak (groupGo prev acc ns) := by
  induction ns with
  | nil => intro prev acc _; simp [groupGo]
  | cons n ns ih =>
    intro prev acc hhd
    simp only [groupGo]
    split
    next hcons => exact ih n (n :: acc) rfl
    next hncons =>
      rw [List.chain'_cons']
      refine ⟨?_, ih n [n] rfl⟩
      intro y hy
      obtain ⟨t, gs, heq⟩ := groupGo_first ns n [n]
      rw [heq] at hy
      simp only [List.head?_cons, Option.mem_some_iff] at hy
      subst hy
      intro a b ha hb
      rw [List.getLast?_reverse, hhd] at ha
      simp only [List.reverse_cons, List.reverse_nil, List.nil_append,
        List.cons_append, List.head?_cons] at hb
      cases ha
      cases hb
      exact hncons

/-! ## Lemmas about classification and extraction -/

/-- Two prefixes of the same list with equal lengths are equal. -/
theorem prefix_eq_of_length {a b t : Text} (ha : a <+: t) (hb : b <+: t)
    (h : a.length = b.length) : a = b :=
  (List.prefix_of_prefix_length_le ha hb h.le).sublist.eq_of_length h

/-- Classification as an outer line comment is exactly the `///` prefix
test. -/
theorem getRustdocType_eq_outer_line {text : Text} :
    getRustdocType text = some .outer_line ↔ txt "///" <+: text := by
  unfold getRustdocType
  split
  · simp_all
  · split
    · simp_all
    · split
      · simp_all
      · split <;> simp_all

/-- Classification as an inner line comment is exactly the failed `///` test
followed by the `//!` prefix test. -/
theorem getRustdocType_eq_inner_line {text : Text} :
    getRustdocType text = some .inner_line ↔ txt "//!" <+: text := by
  unfold getRustdocType
  have hd : txt "///" <+: text → txt "//!" <+: text → False := by
    intro h1 h2
    have := prefix_eq_of_length h1 h2 rfl
    simp [txt] at this
  split
  · simp_all
  · split
    · simp_all
    · split
      · simp_all
      · split <;> simp_all

/-- Classification as an outer block comment is exactly the `/**`-but-not-
`/***` test. -/
theorem getRustdocType_eq_outer_block {text : Text} :
    getRustdocType text = some .outer_block ↔
      (txt "/**" <+: text ∧ ¬ txt "/***" <+: text) := by
  unfold getRustdocType
  have hd1 : txt "///" <+: text → txt "/**" <+: text → False := by
    intro h1 h2
    have := prefix_eq_of_length h1 h2 rfl
    simp [txt] at this
  have hd2 : txt "//!" <+: text → txt "/**" <+: text → False := by
    intro h1 h2
    have := prefix_eq_of_length h1 h2 rfl
    simp [txt] at this
  split
  · simp_all
  · split
    · simp_all
    · split
      · simp_all
      · split <;> simp_all

/-- Classification as an inner block comment is exactly the `/*!` prefix
test. -/
theorem getRustdocType_eq_inner_block {text : Text} :
    getRustdocType text = some .inner_block ↔ txt "/*!" <+: text := by
  unfold getRustdocType
  have hd1 : txt "///" <+: text → txt "/*!" <+: text → False := by
    intro h1 h2
    have := prefix_eq_of_length h1 h2 rfl
    simp [txt] at this
  have hd2 : txt "//!" <+: text → txt "/*!" <+: text → False := by
    intro h1 h2
    have := prefix_eq_of_length h1 h2 rfl
    simp [txt] at this
  have hd3 : txt "/**" <+: text → txt "/*!" <+: text → False := by
    intro h1 h2
    have := prefix_eq_of_length h1 h2 rfl
    simp [txt] at this
  split
  · simp_all
  · split
    · simp_all
    · split
      · simp_all
      · split <;> simp_all

/-- The regex match length for a 3-character line marker is 3 or 4, consumes
at most the whole text when the marker is present, and is always at least
3. -/
theorem lineMarkerLength_bounds (marker text : Text) (hm : marker.length = 3)
    (h : marker <+: text) :
    3 ≤ lineMarkerLength marker text ∧ lineMarkerLength marker text ≤ text.length := by
  have hlen : 3 ≤ text.length := hm ▸ h.length_le
  unfold lineMarkerLength
  rw [if_pos h, hm]
  split
  next c rest hc =>
    have h4 : 4 ≤ text.length := by
      by_contra hlt
      have hle : text.length ≤ 3 := by omega
      have hnil : text.drop 3 = [] := List.drop_eq_nil_iff.mpr hle
      rw [hnil] at hc
      cases hc
    split <;> omega
  next => omega

/-- The regex match length for a 3-character line marker is never below the
fallback 3. -/
theorem lineMarkerLength_ge (marker text : Text) (hm : marker.length = 3) :
    3 ≤ lineMarkerLength marker text := by
  unfold lineMarkerLength
  split
  · split
    · split <;> omega
    · omega
  · omega

/-- The prefix length reported by `extractContent` never exceeds the text's
length, for a text that classifies as the given kind. -/
theorem extractContent_prefixLength_le {text : Text} {t : RustdocType}
    (hc : getRustdocType text = some t) :
    (extractContent text t).prefixLength ≤ text.length := by
  cases t with
  | outer_line =>
    exact (lineMarkerLength_bounds (txt "///") text rfl
      (getRustdocType_eq_outer_line.mp hc)).2
  | inner_line =>
    exact (lineMarkerLength_bounds (txt "//!") text rfl
      (getRustdocType_eq_inner_line.mp hc)).2
  | outer_block =>
    have h := (getRustdocType_eq_outer_block.mp hc).1
    have h3 : 3 ≤ text.length := by simpa [txt] using h.length_le
    simpa [extractContent] using h3
  | inner_block =>
    have h := getRustdocType_eq_inner_block.mp hc
    have h3 : 3 ≤ text.length := by simpa [txt] using h.length_le
    simpa [extractContent] using h3

/-! ## Claim theorems -/

/-- C2: `groupConsecutiveNodes` partitions any token sequence into maximal
runs of start-row-consecutive tokens: the groups concatenate back to the
input; every produced group is nonempty and, within it, each token's
0-indexed start row equals the immediately preceding token's start row plus
one; adjacent groups never continue a run across their boundary (maximality);
a single-token input yields one group of size one; the empty input yields no
groups; and tokens at start rows 2, 3, 5 group as [[2,3],[5]]. -/
theorem groupConsecutive_partitions :
    (∀ nodes : List SyntaxNode, (groupConsecutiveNodes nodes).flatten = nodes)
  ∧ (∀ nodes : List SyntaxNode, ∀ g ∈ groupConsecutiveNodes nodes,
      g ≠ [] ∧ List.Chain' consecutive g)
  ∧ (∀ nodes : List SyntaxNode,
      List.Chain' boundaryBreak (groupConsecutiveNodes nodes))
  ∧ (∀ n : SyntaxNode, groupConsecutiveNodes [n] = [[n]])
  ∧ groupConsecutiveNodes [] = []
  ∧ groupConsecutiveNodes [rowTok 2, rowTok 3, rowTok 5]
      = [[rowTok 2, rowTok 3], [rowTok 5]] := by
  refine ⟨groupConsecutiveNodes_flatten, ?_, ?_, ?_, rfl, by decide⟩
  · intro nodes g hg
    cases nodes with
    | nil => simp [groupConsecutiveNodes] at hg
    | cons n ns =>
      exact ⟨groupGo_ne_nil ns n [n] (by simp) g hg,
             groupGo_chain ns n [n] rfl (by simp) g hg⟩
  · intro nodes
    cases nodes with
    | nil => simp [groupConsecutiveNodes]
    | cons n ns => exact groupGo_boundary ns n [n] rfl
  · intro n
    rfl

/-- Witness for C2: the run and boundary properties applied at the concrete
input with start rows 2 and 5. -/
theorem groupConsecutive_partitions_witness :
    (([rowTok 2] : List SyntaxNode) ≠ [] ∧ List.Chain' consecutive [rowTok 2]) ∧
    List.Chain' boundaryBreak (groupConsecutiveNodes [rowTok 2, rowTok 5]) :=
  ⟨groupConsecutive_partitions.2.1 [rowTok 2] [rowTok 2] (by decide),
   groupConsecutive_partitions.2.2.1 [rowTok 2, rowTok 5]⟩

/-! ## Inversion lemmas for the tree builder -/

/-- Inversion of `createParagraphNode`: a produced paragraph carries the
group's joined raw text, the surviving children, and the span of the first
and last child. -/
theorem createParagraphNode_inv {g : List SyntaxNode} {p : TxtParagraphNode}
    (h : createParagraphNode g = some p) :
    ∃ f l, (paragraphChildren g).head? = some f ∧
      (paragraphChildren g).getLast? = some l ∧
      p = { raw := List.intercalate (txt "\n") (g.map SyntaxNode.text)
            range := (f.range.1, l.range.2)
            loc := { start := f.loc.start, stop := l.loc.stop }
            children := paragraphChildren g } := by
  unfold createParagraphNode at h
  split at h
  · cases h
  · split at h
    next f l hf hl => exact ⟨f, l, hf, hl, by cases h; rfl⟩
    next => cases h

/-- The children of the produced document are exactly the surviving
paragraphs. -/
theorem convert_children (docNodes : List SyntaxNode) (rawText : Text) :
    (convertToTextlintAst docNodes rawText).children = documentChildren docNodes := by
  unfold convertToTextlintAst
  split
  · rfl
  next hnone =>
    cases hd : documentChildren docNodes with
    | nil => rfl
    | cons q qs =>
      have h1 : (documentChildren docNodes).head? = some q := by rw [hd]; rfl
      cases hl : (documentChildren docNodes).getLast? with
      | none =>
        rw [List.getLast?_eq_none_iff] at hl
        rw [hd] at hl
        cases hl
      | some l => exact (hnone q l h1 hl).elim

/-- A string node in a produced paragraph's children comes from a token of the
group that classifies as a documentation comment. -/
theorem mem_paragraphChildren {g : List SyntaxNode} {s : TxtStrNode}
    (hs : s ∈ paragraphChildren g) :
    ∃ n ∈ g, ∃ t, getRustdocType n.text = some t ∧ s = createStrNode n t := by
  unfold paragraphChildren at hs
  rw [List.mem_filterMap] at hs
  obtain ⟨n, hn, hmap⟩ := hs
  cases ht : getRustdocType n.text with
  | none => rw [ht] at hmap; cases hmap
  | some t =>
    rw [ht] at hmap
    simp only [Option.map_some', Option.some.injEq] at hmap
    exact ⟨n, hn, t, ht, hmap.symm⟩

/-- A paragraph of the produced document comes from one of the groups. -/
theorem mem_of_mem_documentChildren {docNodes : List SyntaxNode}
    {p : TxtParagraphNode} (hp : p ∈ documentChildren docNodes) :
    ∃ g, g ∈ groupConsecutiveNodes (rustdocFilter docNodes) ∧
      createParagraphNode g = some p := by
  unfold documentChildren at hp
  rw [List.mem_filterMap] at hp
  exact hp

/-- Every token of every group is one of the input tokens (and survived the
documentation filter). -/
theorem mem_group_mem_input {docNodes : List SyntaxNode} {g : List SyntaxNode}
    (hg : g ∈ groupConsecutiveNodes (rustdocFilter docNodes)) {n : SyntaxNode}
    (hn : n ∈ g) : n ∈ docNodes := by
  have hm : n ∈ (groupConsecutiveNodes (rustdocFilter docNodes)).flatten :=
    List.mem_flatten_of_mem hg hn
  rw [groupConsecutiveNodes_flatten] at hm
  exact List.mem_of_mem_filter hm

/-- C4: `getRustdocType` applies its rules in order with first match winning
(`///` outer line, `//!` inner line, `/**` but not `/***` outer block, `/*!`
inner block, otherwise no documentation comment), and a token classified as
`none` contributes no string node to any paragraph of the conversion: every
child of every produced paragraph comes from a token whose classification is
`some` kind. -/
theorem classification_rules :
    (∀ text : Text, txt "///" <+: text → getRustdocType text = some .outer_line)
  ∧ (∀ text : Text, ¬ txt "///" <+: text → txt "//!" <+: text →
      getRustdocType text = some .inner_line)
  ∧ (∀ text : Text, ¬ txt "///" <+: text → ¬ txt "//!" <+: text →
      txt "/**" <+: text → ¬ txt "/***" <+: text →
      getRustdocType text = some .outer_block)
  ∧ (∀ text : Text, ¬ txt "///" <+: text → ¬ txt "//!" <+: text →
      ¬ (txt "/**" <+: text ∧ ¬ txt "/***" <+: text) → txt "/*!" <+: text →
      getRustdocType text = some .inner_block)
  ∧ (∀ text : Text, ¬ txt "///" <+: text → ¬ txt "//!" <+: text →
      ¬ (txt "/**" <+: text ∧ ¬ txt "/***" <+: text) → ¬ txt "/*!" <+: text →
      getRustdocType text = none)
  ∧ (∀ (docNodes : List SyntaxNode) (rawText : Text)
      (p : TxtParagraphNode) (s : TxtStrNode),
      p ∈ (convertToTextlintAst docNodes rawText).children → s ∈ p.children →
      ∃ n ∈ docNodes, ∃ t, getRustdocType n.text = some t ∧
        s = createStrNode n t) := by
  refine ⟨?_, ?_, ?_, ?_, ?_, ?_⟩
  · intro text h
    simp [getRustdocType, h]
  · intro text h1 h2
    simp [getRustdocType, h1, h2]
  · intro text h1 h2 h3 h4
    simp [getRustdocType, h1, h2, h3, h4]
  · intro text h1 h2 h3 h4
    simp [getRustdocType, h1, h2, h3, h4]
  · intro text h1 h2 h3 h4
    simp [getRustdocType, h1, h2, h3, h4]
  · intro docNodes rawText p s hp hs
    rw [convert_children] at hp
    obtain ⟨g, hg, hgp⟩ := mem_of_mem_documentChildren hp
    obtain ⟨f, l, hf, hl, rfl⟩ := createParagraphNode_inv hgp
    obtain ⟨n, hn, t, ht, hst⟩ := mem_paragraphChildren hs
    exact ⟨n, mem_group_mem_input hg hn, t, ht, hst⟩

/-- Witness for C4: the first and the last classification rule applied at the
concrete texts of the spec's examples. -/
theorem classification_rules_witness :
    getRustdocType (txt "/// x") = some .outer_line ∧
    getRustdocType (txt "// foo") = none :=
  ⟨classification_rules.1 (txt "/// x") (by decide),
   classification_rules.2.2.2.2.1 (txt "// foo")
     (by decide) (by decide) (by decide) (by decide)⟩

/-- Follows the claim's words (C1): the 1-indexed line of the position at
character offset `off` of the source, for comparing the document's location
against its range. -/
def claimLineOfOffset (text : Text) (off : Nat) : Nat :=
  1 + (text.take off).count '\n'

/-- Follows the claim's words (C1): the 0-indexed column of the position at
character offset `off` of the source. -/
def claimColumnOfOffset (text : Text) (off : Nat) : Nat :=
  ((text.take off).reverse.takeWhile (fun c => c != '\n')).length

/-- Example token: a plain (non-documentation) comment on row 0. -/
def plainTok : SyntaxNode :=
  { text := txt "// x"
    startIndex := 0
    endIndex := (txt "// x").length
    startPosition := { row := 0, column := 0 }
    endPosition := { row := 0, column := (txt "// x").length } }

/-- Example token: an outer line documentation comment on row 0. -/
def lineTok : SyntaxNode :=
  { text := txt "/// This is a rustdoc comment."
    startIndex := 0
    endIndex := (txt "/// This is a rustdoc comment.").length
    startPosition := { row := 0, column := 0 }
    endPosition := { row := 0, column := (txt "/// This is a rustdoc comment.").length } }

/-- Example token: a single-line outer block documentation comment. -/
def blockTok : SyntaxNode :=
  { text := txt "/**x*/"
    startIndex := 0
    endIndex := (txt "/**x*/").length
    startPosition := { row := 0, column := 0 }
    endPosition := { row := 0, column := (txt "/**x*/").length } }

/-- When no paragraph survives, the conversion returns the fixed fallback
document. -/
theorem convert_of_documentChildren_nil {docNodes : List SyntaxNode}
    (rawText : Text) (hd : documentChildren docNodes = []) :
    convertToTextlintAst docNodes rawText =
      { raw := rawText
        range := (0, rawText.length)
        loc := { start := { line := 1, column := 0 }
                 stop := { line := 1, column := 0 } }
        children := [] } := by
  unfold convertToTextlintAst
  rw [hd]
  rfl

/-- C1 as stated is false: on the source "ab" (length 2) with no tokens, the
conversion returns empty children and range [0, 2], but the end location is
line 1 column 0, not the position corresponding to the range's end offset 2
(line 1 column 2). -/
theorem convert_empty_loc_cex :
    (convertToTextlintAst [] (txt "ab")).children = [] ∧
    (convertToTextlintAst [] (txt "ab")).range = (0, (txt "ab").length) ∧
    ¬ ((convertToTextlintAst [] (txt "ab")).loc.stop.line
          = claimLineOfOffset (txt "ab") (txt "ab").length ∧
       (convertToTextlintAst [] (txt "ab")).loc.stop.column
          = claimColumnOfOffset (txt "ab") (txt "ab").length) := by
  decide

/-- C1 amended: for every source text, the conversion applied to an empty
token sequence, or to any sequence with no documentation comments, returns a
document with empty children, range [0, text.length], and a location whose
start AND end both sit at the beginning of the source (line 1, column 0); the
end location is a fixed constant, not the position of the range's end. -/
theorem convert_empty (docNodes : List SyntaxNode) (rawText : Text)
    (h : ∀ n ∈ docNodes, getRustdocType n.text = none) :
    convertToTextlintAst docNodes rawText =
      { raw := rawText
        range := (0, rawText.length)
        loc := { start := { line := 1, column := 0 }
                 stop := { line := 1, column := 0 } }
        children := [] } := by
  have hf : rustdocFilter docNodes = [] := by
    unfold rustdocFilter
    rw [List.filter_eq_nil_iff]
    intro n hn
    simp [h n hn]
  have hd : documentChildren docNodes = [] := by
    unfold documentChildren
    rw [hf]
    rfl
  exact convert_of_documentChildren_nil rawText hd

/-- Witness for C1: the amended statement applied to the empty token sequence
and to a single plain `//` comment token. -/
theorem convert_empty_witness :
    convertToTextlintAst [plainTok] (txt "// x") =
      { raw := txt "// x"
        range := (0, (txt "// x").length)
        loc := { start := { line := 1, column := 0 }
                 stop := { line := 1, column := 0 } }
        children := [] } :=
  convert_empty [plainTok] (txt "// x") (by decide)

/-- C7: every paragraph of a produced document has a nonempty list of
children, a range running from its first child's range start to its last
child's range end, and a location running from its first child's start
location to its last child's end location; a group whose tokens strip to zero
qualifying children produces no paragraph at all. -/
theorem paragraph_invariants :
    (∀ (docNodes : List SyntaxNode) (rawText : Text) (p : TxtParagraphNode),
      p ∈ (convertToTextlintAst docNodes rawText).children →
      p.children ≠ [] ∧
      ∃ f l, p.children.head? = some f ∧ p.children.getLast? = some l ∧
        p.range = (f.range.1, l.range.2) ∧
        p.loc.start = f.loc.start ∧ p.loc.stop = l.loc.stop)
  ∧ (∀ g : List SyntaxNode, paragraphChildren g = [] →
      createParagraphNode g = none) := by
  constructor
  · intro docNodes rawText p hp
    rw [convert_children] at hp
    obtain ⟨g, hg, hgp⟩ := mem_of_mem_documentChildren hp
    obtain ⟨f, l, hf, hl, rfl⟩ := createParagraphNode_inv hgp
    refine ⟨?_, f, l, hf, hl, rfl, rfl, rfl⟩
    show paragraphChildren g ≠ []
    intro hnil
    rw [hnil] at hf
    cases hf
  · intro g hg
    unfold createParagraphNode
    split
    · rfl
    · rw [hg]
      rfl

/-- Witness for C7: the no-surviving-children rule applied to the concrete
group holding one plain comment token. -/
theorem paragraph_invariants_witness :
    createParagraphNode [plainTok] = none :=
  paragraph_invariants.2 [plainTok] (by decide)

/-- C9: classification, extraction and conversion are total: extraction of a
line comment whose marker is absent falls back to the fixed prefix length 3
rather than failing, classification always decides some kind or none, and the
conversion always returns a document whose raw text is the source, the
absence of documentation comments yielding the well-formed empty document
rather than an error. -/
theorem conversion_total :
    (∀ text : Text, ¬ txt "///" <+: text →
      extractContent text .outer_line =
        { content := text.drop 3, prefixLength := 3 })
  ∧ (∀ text : Text, ¬ txt "//!" <+: text →
      extractContent text .inner_line =
        { content := text.drop 3, prefixLength := 3 })
  ∧ (∀ text : Text, getRustdocType text = none ∨
      ∃ t, getRustdocType text = some t)
  ∧ (∀ (docNodes : List SyntaxNode) (rawText : Text),
      (convertToTextlintAst docNodes rawText).raw = rawText)
  ∧ (∀ (docNodes : List SyntaxNode) (rawText : Text),
      (convertToTextlintAst docNodes rawText).children = [] →
      convertToTextlintAst docNodes rawText =
        { raw := rawText
          range := (0, rawText.length)
          loc := { start := { line := 1, column := 0 }
                   stop := { line := 1, column := 0 } }
          children := [] }) := by
  refine ⟨?_, ?_, ?_, ?_, ?_⟩
  · intro text h
    simp [extractContent, lineMarkerLength, h]
  · intro text h
    simp [extractContent, lineMarkerLength, h]
  · intro text
    cases h : getRustdocType text with
    | none => exact Or.inl rfl
    | some t => exact Or.inr ⟨t, rfl⟩
  · intro docNodes rawText
    unfold convertToTextlintAst
    split <;> rfl
  · intro docNodes rawText h
    rw [convert_children] at h
    exact convert_of_documentChildren_nil rawText h

/-- Witness for C9: the fallback and the empty-document rule applied at
concrete inputs. -/
theorem conversion_total_witness :
    extractContent (txt "// x") .outer_line =
      { content := txt "x", prefixLength := 3 } ∧
    convertToTextlintAst [] (txt "ab") =
      { raw := txt "ab"
        range := (0, (txt "ab").length)
        loc := { start := { line := 1, column := 0 }
                 stop := { line := 1, column := 0 } }
        children := [] } :=
  ⟨conversion_total.1 (txt "// x") (by decide),
   conversion_total.2.2.2.2 [] (txt "ab") (by decide)⟩

/-- C5: for every string node produced from a well-formed line-comment token
(outer or inner), the width of its range equals the length of its content;
for block comments the fixed prefix length 3 makes this fail, witnessed by a
concrete well-formed block token. -/
theorem strNode_line_exact :
    (∀ (node : SyntaxNode) (t : RustdocType),
      node.endIndex = node.startIndex + node.text.length →
      getRustdocType node.text = some t →
      t = .outer_line ∨ t = .inner_line →
      (createStrNode node t).range.2 - (createStrNode node t).range.1
        = (createStrNode node t).value.length)
  ∧ (∃ node : SyntaxNode,
      getRustdocType node.text = some .outer_block ∧
      node.endIndex = node.startIndex + node.text.length ∧
      (createStrNode node .outer_block).range.2
          - (createStrNode node .outer_block).range.1
        ≠ (createStrNode node .outer_block).value.length) := by
  constructor
  · intro node t he hc ht
    rcases ht with rfl | rfl
    · have hb := lineMarkerLength_bounds (txt "///") node.text rfl
        (getRustdocType_eq_outer_line.mp hc)
      show node.endIndex - (node.startIndex + lineMarkerLength (txt "///") node.text)
          = (node.text.drop (lineMarkerLength (txt "///") node.text)).length
      rw [he, List.length_drop]
      omega
    · have hb := lineMarkerLength_bounds (txt "//!") node.text rfl
        (getRustdocType_eq_inner_line.mp hc)
      show node.endIndex - (node.startIndex + lineMarkerLength (txt "//!") node.text)
          = (node.text.drop (lineMarkerLength (txt "//!") node.text)).length
      rw [he, List.length_drop]
      omega
  · exact ⟨blockTok, by decide, by decide, by decide⟩

/-- Witness for C5: the line-comment exactness applied at a concrete outer
line token. -/
theorem strNode_line_exact_witness :
    (createStrNode lineTok .outer_line).range.2
        - (createStrNode lineTok .outer_line).range.1
      = (createStrNode lineTok .outer_line).value.length :=
  strNode_line_exact.1 lineTok .outer_line (by decide) (by decide) (Or.inl rfl)

/-- Length of a token text's final source line: the characters after the last
newline. -/
def lastLineLength (t : Text) : Nat :=
  (t.reverse.takeWhile (fun c => c != '\n')).length

/-- Order on textlint positions: strictly earlier line, or the same line with
no later column. -/
def locLE (a b : CodePos) : Prop :=
  a.line < b.line ∨ (a.line = b.line ∧ a.column ≤ b.column)

instance (a b : CodePos) : Decidable (locLE a b) :=
  inferInstanceAs (Decidable (_ ∨ _))

/-- The tokenizer's contract tying a token's text to its index and position
metadata: the index span is the text's length, the row span is the text's
newline count, and the end column counts the characters of the final line
(after the start column when the token is single-line). -/
def WellFormedToken (n : SyntaxNode) : Prop :=
  n.endIndex = n.startIndex + n.text.length ∧
  n.endPosition.row = n.startPosition.row + n.text.count '\n' ∧
  n.endPosition.column =
    (if n.text.count '\n' = 0 then n.startPosition.column + n.text.length
     else lastLineLength n.text)

instance (n : SyntaxNode) : Decidable (WellFormedToken n) :=
  inferInstanceAs (Decidable (_ ∧ _ ∧ _))

/-- C6: every string node produced from a well-formed token that classifies
as a documentation kind has a range whose start does not exceed its end, and
a start location (1-indexed line, 0-indexed column advanced by the prefix
length) that does not come after its end location (taken verbatim from the
token's end position). -/
theorem strNode_monotone (node : SyntaxNode) (t : RustdocType)
    (hc : getRustdocType node.text = some t) (hw : WellFormedToken node) :
    (createStrNode node t).range.1 ≤ (createStrNode node t).range.2 ∧
    locLE (createStrNode node t).loc.start (createStrNode node t).loc.stop := by
  obtain ⟨he, hr, hcol⟩ := hw
  have hp : (extractContent node.text t).prefixLength ≤ node.text.length :=
    extractContent_prefixLength_le hc
  constructor
  · show node.startIndex + (extractContent node.text t).prefixLength ≤ node.endIndex
    omega
  · show locLE
      { line := node.startPosition.row + 1
        column := node.startPosition.column + (extractContent node.text t).prefixLength }
      { line := node.endPosition.row + 1, column := node.endPosition.column }
    unfold locLE
    dsimp only
    by_cases h0 : node.text.count '\n' = 0
    · right
      rw [hcol, if_pos h0]
      omega
    · left
      rw [if_neg h0] at hcol
      omega

/-- Witness for C6: the monotonicity applied at a concrete well-formed outer
line token. -/
theorem strNode_monotone_witness :
    (createStrNode lineTok .outer_line).range.1
        ≤ (createStrNode lineTok .outer_line).range.2 ∧
    locLE (createStrNode lineTok .outer_line).loc.start
      (createStrNode lineTok .outer_line).loc.stop :=
  strNode_monotone lineTok .outer_line (by decide) (by decide)

/-- Follows the claim's words (C3): strip from a line any leading whitespace
followed by an OPTIONAL `*` and one optional following whitespace character —
the leading whitespace is removed even when no `*` follows. -/
def claimStripLine (line : Text) : Text :=
  match line.dropWhile isJsWhitespace with
  | '*' :: rest =>
    match rest with
    | c :: rest2 => if isJsWhitespace c then rest2 else rest
    | [] => []
  | r => r

/-- Follows the claim's words (C3): the block-content pipeline with the
claim's per-line rule. -/
def claimBlockContent (text : Text) : Text :=
  trimText (List.intercalate (txt "\n")
    (((blockInner text).splitOn '\n').map claimStripLine))

/-- C3 as stated is false: on the block comment whose inner body has the line
"  b" (leading whitespace, no `*`), the code keeps the line unchanged —
content "a\n  b" — while the claim's rule (optional `*`) would strip the
leading whitespace and give "a\nb". -/
theorem extractContent_block_cex :
    (extractContent (txt "/**\na\n  b\n*/") .outer_block).content = txt "a\n  b" ∧
    claimBlockContent (txt "/**\na\n  b\n*/") = txt "a\nb" ∧
    (extractContent (txt "/**\na\n  b\n*/") .outer_block).content
      ≠ claimBlockContent (txt "/**\na\n  b\n*/") := by
  decide

/-- The amended per-line rule (C3): only when the first character after the
leading whitespace run is a `*` are the whitespace, the `*`, and one optional
following whitespace character removed; a line with no `*` after its leading
whitespace is returned unchanged, leading whitespace included. -/
def amendedStripLine (line : Text) : Text :=
  if (line.dropWhile isJsWhitespace).head? = some '*' then
    if ((line.dropWhile isJsWhitespace).tail.head?.any isJsWhitespace) then
      (line.dropWhile isJsWhitespace).tail.tail
    else
      (line.dropWhile isJsWhitespace).tail
  else line

/-- The code's per-line replacement agrees with the amended rule. -/
theorem stripLineMarker_eq_amended (line : Text) :
    stripLineMarker line = amendedStripLine line := by
  unfold stripLineMarker amendedStripLine
  split
  next rest heq =>
    rw [heq]
    cases rest with
    | nil => simp
    | cons c rest2 =>
      by_cases hws : isJsWhitespace c <;> simp [hws]
  next h =>
    split
    next hstar =>
      cases hd : line.dropWhile isJsWhitespace with
      | nil => rw [hd] at hstar; cases hstar
      | cons c rest =>
        rw [hd] at hstar
        simp only [List.head?_cons, Option.some.injEq] at hstar
        exact absurd hd (by rw [hstar]; exact fun hh => h rest hh)
    next => rfl

/-- C3 amended: for both block kinds, `extractContent` removes the first 3
and last 2 characters, applies the amended per-line rule (the `*` must be
present for any stripping to happen on that line), rejoins with newlines,
trims the whole result, and reports prefix length 3; the 4-line block comment
of the spec's Scenario D yields "Block doc comment.\nMultiple lines.". -/
theorem extractContent_block_amended :
    (∀ text : Text,
      extractContent text .outer_block =
        { content := trimText (List.intercalate (txt "\n")
            (((blockInner text).splitOn '\n').map amendedStripLine))
          prefixLength := 3 } ∧
      extractContent text .inner_block =
        { content := trimText (List.intercalate (txt "\n")
            (((blockInner text).splitOn '\n').map amendedStripLine))
          prefixLength := 3 })
  ∧ extractContent (txt "/**\n * Block doc comment.\n * Multiple lines.\n */")
      .outer_block
      = { content := txt "Block doc comment.\nMultiple lines."
          prefixLength := 3 } := by
  constructor
  · intro text
    have hfun : stripLineMarker = amendedStripLine := funext stripLineMarker_eq_amended
    constructor <;>
      simp only [extractContent, processBlockContent, hfun]
  · decide

/-- Per-line stripping only removes characters: the result is a sublist of
the line. -/
theorem stripLineMarker_sublist (l : Text) : stripLineMarker l <+ l := by
  have hd : l.dropWhile isJsWhitespace <+ l := (List.dropWhile_suffix _).sublist
  unfold stripLineMarker
  split
  next rest heq =>
    rw [heq] at hd
    cases rest with
    | nil => exact (List.nil_sublist _).trans hd
    | cons c rest2 =>
      by_cases hws : isJsWhitespace c
      · simp only [hws, if_pos]
        exact ((List.sublist_cons_self c rest2).trans
          (List.sublist_cons_self '*' _)).trans hd
      · simp only [hws, if_neg, Bool.false_eq_true, not_false_eq_true]
        exact (List.sublist_cons_self '*' _).trans hd
  next => exact List.Sublist.refl l

/-- Trimming only removes characters from the ends: the result is a sublist
of the input. -/
theorem trimText_sublist (t : Text) : trimText t <+ t := by
  unfold trimText
  have h1 : t.dropWhile isJsWhitespace <+ t := (List.dropWhile_suffix _).sublist
  have h2 : (t.dropWhile isJsWhitespace).reverse.dropWhile isJsWhitespace
      <+ (t.dropWhile isJsWhitespace).reverse := (List.dropWhile_suffix _).sublist
  have h3 := List.reverse_sublist.mpr h2
  rw [List.reverse_reverse] at h3
  exact h3.trans h1

/-- Unfolds one step of `intercalate` on a list of at least two pieces. -/
theorem intercalate_cons₂ (sep a b : Text) (t : List Text) :
    List.intercalate sep (a :: b :: t)
      = a ++ sep ++ List.intercalate sep (b :: t) := by
  simp [List.intercalate, List.intersperse_cons_cons, List.append_assoc]

/-- `intercalate` preserves piecewise sublists. -/
theorem intercalate_sublist {sep : Text} {as bs : List Text}
    (h : List.Forall₂ (· <+ ·) as bs) :
    List.intercalate sep as <+ List.intercalate sep bs := by
  induction h with
  | nil => simp [List.intercalate]
  | cons hab htail ih =>
    cases htail with
    | nil => simpa [List.intercalate] using hab
    | cons hab' htail' =>
      rw [intercalate_cons₂, intercalate_cons₂]
      exact (hab.append (List.Sublist.refl sep)).append ih

/-- Mapping the per-line stripper over any list of lines yields piecewise
sublists. -/
theorem forall₂_stripLineMarker (L : List Text) :
    List.Forall₂ (· <+ ·) (L.map stripLineMarker) L := by
  induction L with
  | nil => exact List.Forall₂.nil
  | cons a L ih => exact List.Forall₂.cons (stripLineMarker_sublist a) ih

/-- Block-content processing only removes characters: the result is a sublist
of the inner body. -/
theorem processBlockContent_sublist (c : Text) : processBlockContent c <+ c := by
  have hsep : txt "\n" = ['\n'] := rfl
  have h2 : List.intercalate (txt "\n") (c.splitOn '\n') = c := by
    rw [hsep]
    exact List.intercalate_splitOn c '\n'
  calc processBlockContent c
      <+ List.intercalate (txt "\n") ((c.splitOn '\n').map stripLineMarker) :=
        trimText_sublist _
    _ <+ List.intercalate (txt "\n") (c.splitOn '\n') :=
        intercalate_sublist (forall₂_stripLineMarker _)
    _ = c := h2

/-- C8: for every text classified as one of the four documentation kinds, the
extracted content contains none of the marker characters: the content is
built only from characters strictly after the 3-character opening marker (it
is a sublist of the text with its first 3 characters removed), and for the
block kinds it is moreover a sublist of the inner body, which also excludes
the closing marker characters. -/
theorem extractContent_no_marker (text : Text) (t : RustdocType)
    (hc : getRustdocType text = some t) :
    (extractContent text t).content <+ text.drop 3 ∧
    ((t = .outer_block ∨ t = .inner_block) →
      (extractContent text t).content <+ blockInner text) := by
  cases t with
  | outer_line =>
    constructor
    · show text.drop (lineMarkerLength (txt "///") text) <+ text.drop 3
      have h3 : 3 ≤ lineMarkerLength (txt "///") text :=
        lineMarkerLength_ge _ _ rfl
      rw [show lineMarkerLength (txt "///") text
          = 3 + (lineMarkerLength (txt "///") text - 3) by omega,
        ← List.drop_drop]
      exact List.drop_sublist _ _
    · rintro (h | h) <;> cases h
  | inner_line =>
    constructor
    · show text.drop (lineMarkerLength (txt "//!") text) <+ text.drop 3
      have h3 : 3 ≤ lineMarkerLength (txt "//!") text :=
        lineMarkerLength_ge _ _ rfl
      rw [show lineMarkerLength (txt "//!") text
          = 3 + (lineMarkerLength (txt "//!") text - 3) by omega,
        ← List.drop_drop]
      exact List.drop_sublist _ _
    · rintro (h | h) <;> cases h
  | outer_block =>
    have hsub : processBlockContent (blockInner text) <+ blockInner text :=
      processBlockContent_sublist _
    exact ⟨hsub.trans (List.take_sublist _ _), fun _ => hsub⟩
  | inner_block =>
    have hsub : processBlockContent (blockInner text) <+ blockInner text :=
      processBlockContent_sublist _
    exact ⟨hsub.trans (List.take_sublist _ _), fun _ => hsub⟩

/-- Witness for C8: the no-marker property applied at a concrete block
token's text. -/
theorem extractContent_no_marker_witness :
    (extractContent (txt "/**x*/") .outer_block).content <+ (txt "/**x*/").drop 3 ∧
    ((RustdocType.outer_block = .outer_block ∨ RustdocType.outer_block = .inner_block) →
      (extractContent (txt "/**x*/") .outer_block).content <+ blockInner (txt "/**x*/")) :=
  extractContent_no_marker (txt "/**x*/") .outer_block (by decide)

/-- When some element maps to `none`, `filterMap` produces a strictly shorter
list. -/
theorem length_filterMap_lt {α β : Type} {f : α → Option β} {l : List α}
    {a : α} (ha : a ∈ l) (hf : f a = none) :
    (l.filterMap f).length < l.length := by
  induction l with
  | nil => cases ha
  | cons b t ih =>
    rcases List.mem_cons.mp ha with rfl | hat
    · rw [List.filterMap_cons_none hf]
      exact Nat.lt_succ_of_le (List.length_filterMap_le f t)
    · cases hfb : f b with
      | none =>
        rw [List.filterMap_cons_none hfb]
        exact Nat.lt_succ_of_lt (ih hat)
      | some y =>
        rw [List.filterMap_cons_some hfb]
        simpa using Nat.succ_lt_succ (ih hat)

/-- C10: a group given to `createParagraphNode` that holds at least one
documentation token and at least one `none`-classified token still produces a
paragraph, whose raw text is the newline-join of EVERY token's raw text —
including the `none`-classified ones — while its children list is strictly
shorter than the group, so the raw text carries comment text that appears in
no child. -/
theorem paragraph_raw_keeps_all (group : List SyntaxNode) (n1 n2 : SyntaxNode)
    (k : RustdocType) (h1 : n1 ∈ group) (h2 : getRustdocType n1.text = some k)
    (h3 : n2 ∈ group) (h4 : getRustdocType n2.text = none) :
    ∃ p, createParagraphNode group = some p ∧
      p.raw = List.intercalate (txt "\n") (group.map SyntaxNode.text) ∧
      p.children.length < group.length := by
  have hmem : createStrNode n1 k ∈ paragraphChildren group := by
    unfold paragraphChildren
    rw [List.mem_filterMap]
    exact ⟨n1, h1, by rw [h2]; rfl⟩
  have hne : paragraphChildren group ≠ [] := List.ne_nil_of_mem hmem
  have hlen : (paragraphChildren group).length < group.length := by
    unfold paragraphChildren
    exact length_filterMap_lt h3 (by rw [h4]; rfl)
  have hgne : ¬ group.isEmpty = true :=
    fun he => List.ne_nil_of_mem h1 (List.isEmpty_iff.mp he)
  cases hh : (paragraphChildren group).head? with
  | none => exact absurd (List.head?_eq_none_iff.mp hh) hne
  | some f =>
    cases hl : (paragraphChildren group).getLast? with
    | none => exact absurd (List.getLast?_eq_none_iff.mp hl) hne
    | some l =>
      refine ⟨{ raw := List.intercalate (txt "\n") (group.map SyntaxNode.text)
                range := (f.range.1, l.range.2)
                loc := { start := f.loc.start, stop := l.loc.stop }
                children := paragraphChildren group }, ?_, rfl, hlen⟩
      unfold createParagraphNode
      rw [if_neg hgne, hh, hl]

/-- Witness for C10: a two-token group holding one outer line documentation
comment and one plain comment. -/
theorem paragraph_raw_keeps_all_witness :
    ∃ p, createParagraphNode [lineTok, plainTok] = some p ∧
      p.raw = List.intercalate (txt "\n")
        ([lineTok, plainTok].map SyntaxNode.text) ∧
      p.children.length < ([lineTok, plainTok] : List SyntaxNode).length :=
  paragraph_raw_keeps_all [lineTok, plainTok] lineTok plainTok .outer_line
    (by decide) (by decide) (by decide) (by decide)

end Rustdoc
